import Mathlib

/-!
Verification of the region push-lock service
(`backend/app/services/lock_service.py`) of the server-building-dashboard
repository.

The lock table is embedded as a list of rows (one row per region, enforced
by the unique key on `region` from migration `001_add_region_push_locks`),
timestamps as integers, and each service function as a pure Lean function
from table state to table state plus result.  Transaction-instrumented
variants (`acquire_lock_tx`, `release_lock_tx`, `cleanup_expired_locks_tx`)
additionally thread a fault schedule to model storage errors and
rollback behaviour.
-/

/-- Helper for `str_lower`: `Char.ofNat` of a valid codepoint round-trips
through `Char.toNat`. -/
theorem char_toNat_ofNat {n : Nat} (h : n.isValidChar) : (Char.ofNat n).toNat = n := by
  rw [Char.ofNat, dif_pos h]
  rfl

/-- ASCII lowercasing of a character is idempotent. -/
theorem char_toLower_idem (c : Char) : c.toLower.toLower = c.toLower := by
  have key : ∀ d : Char, ¬(65 ≤ d.toNat ∧ d.toNat ≤ 90) → d.toLower = d := by
    intro d hd
    simp only [Char.toLower, ge_iff_le]
    exact if_neg hd
  by_cases h : 65 ≤ c.toNat ∧ c.toNat ≤ 90
  · have h1 : c.toLower = Char.ofNat (c.toNat + 32) := by
      simp only [Char.toLower, ge_iff_le]
      exact if_pos h
    have hv : (c.toNat + 32).isValidChar := Or.inl (by omega)
    rw [h1]
    apply key
    rw [char_toNat_ofNat hv]
    omega
  · rw [key c h, key c h]

/-- Embedding of Python's `str.lower()` as applied to the ASCII region codes
the service handles (`region.lower()` in the source). -/
def str_lower (s : String) : String := String.mk (s.data.map Char.toLower)

/-- Lowercasing a string is idempotent, so `acquire_lock` passing the already
lowercased region into `cleanup_expired_locks` (which lowercases again) filters
on the same key. -/
theorem str_lower_idem (s : String) : str_lower (str_lower s) = str_lower s := by
  have hcomp : Char.toLower ∘ Char.toLower = Char.toLower := funext char_toLower_idem
  simp [str_lower, List.map_map, hcomp]

/-- Row of the `region_push_locks` table.  Columns follow migration
`alembic/versions/001_add_region_push_locks.py`: `region` carries a unique
key and is the lookup/conflict key for every statement in the service; the
`id` autoincrement surrogate column is never read or compared by the service
and is omitted.  Timestamps are modelled as integers (seconds). -/
structure RegionPushLockDB where
  region : String
  locked_by_email : String
  locked_by_name : Option String
  locked_at : Int
  expires_at : Int
deriving DecidableEq, Repr

/-- Caller identity: the fields of `app.models.User` read by the lock
service (`user.email`, `user.name`). -/
structure User where
  email : String
  name : Option String
deriving DecidableEq, Repr

/-- Result model `app.models.RegionLockInfo`. -/
structure RegionLockInfo where
  region : String
  is_locked : Bool
  locked_by_email : Option String
  locked_by_name : Option String
  locked_at : Option Int
  expires_at : Option Int
deriving DecidableEq, Repr

/-- The lock table state: the rows of `region_push_locks`. -/
abbrev Table := List RegionPushLockDB

/-- Well-formedness guaranteed by the storage layer: the unique key on
`region` means no two rows share a region code. -/
def WF (t : Table) : Prop := (t.map (fun row => row.region)).Nodup

/-- Embedding of `select(RegionPushLockDB).where(region == r)` followed by
`scalar_one_or_none()`: the unique row with the given region, if any. -/
def selectRegion : Table → String → Option RegionPushLockDB
  | [], _ => none
  | row :: rest, r => if row.region = r then some row else selectRegion rest r

/-- RegionLockInfo built from an existing row, as in the blocked and status
paths of the service (`is_locked=True`, holder fields copied from the row). -/
def lockInfoOfRow (row : RegionPushLockDB) : RegionLockInfo where
  region := row.region
  is_locked := true
  locked_by_email := some row.locked_by_email
  locked_by_name := row.locked_by_name
  locked_at := some row.locked_at
  expires_at := some row.expires_at

/-- RegionLockInfo reported for an unlocked region: `is_locked=False` and no
holder fields (`get_lock_status`, lines 328-331). -/
def unlockedInfo (r : String) : RegionLockInfo where
  region := r
  is_locked := false
  locked_by_email := none
  locked_by_name := none
  locked_at := none
  expires_at := none

/-- ORM in-place mutation of the unique row for region `r` (the refresh and
takeover paths assign attributes of the selected row and commit). -/
def updateRegion (t : Table) (r : String) (v : RegionPushLockDB) : Table :=
  t.map (fun row => if row.region = r then v else row)

/-- Embedding of the statement built at `lock_service.py` lines 123-137:
`INSERT ... ON DUPLICATE KEY UPDATE` with the four holder/lease columns set
to the inserted values.  On a `region` key conflict the existing row's
columns are overwritten with the new values unconditionally — the statement
carries no `expires_at` guard. -/
def insert_on_duplicate_key_update (t : Table) (vals : RegionPushLockDB) : Table :=
  if t.any (fun row => row.region == vals.region) then
    t.map (fun row =>
      if row.region = vals.region then
        { row with
          locked_by_email := vals.locked_by_email
          locked_by_name := vals.locked_by_name
          locked_at := vals.locked_at
          expires_at := vals.expires_at }
      else row)
  else
    t ++ [vals]

/-- Embedding of `cleanup_expired_locks` (lines 247-293): delete rows with
`expires_at < now`, scoped to `region.lower()` when a region is given;
returns the new table and the rowcount of deleted rows. -/
def cleanup_expired_locks (t : Table) (region : Option String) (now : Int) : Table × Nat :=
  match region with
  | some r =>
    (t.filter (fun row => !(row.region == str_lower r && decide (row.expires_at < now))),
     (t.filter (fun row => row.region == str_lower r && decide (row.expires_at < now))).length)
  | none =>
    (t.filter (fun row => !(decide (row.expires_at < now))),
     (t.filter (fun row => decide (row.expires_at < now))).length)

/-- Embedding of `acquire_lock` (lines 27-173), sequential semantics: clean
up expired locks for the region, look for an existing row, then refresh /
refuse / take over, or insert via `insert_on_duplicate_key_update` and read
back to check who won.  Returns the new table, the granted flag, and the
conflicting lock info if denied. -/
def acquire_lock (t : Table) (region : String) (user : User)
    (timeout_seconds : Int) (now : Int) : Table × Bool × Option RegionLockInfo :=
  let region_lower := str_lower region
  let expires_at := now + timeout_seconds
  let t1 := (cleanup_expired_locks t (some region_lower) now).1
  match selectRegion t1 region_lower with
  | some existing_lock =>
    if existing_lock.locked_by_email = user.email then
      (updateRegion t1 region_lower
        { existing_lock with locked_at := now, expires_at := expires_at }, true, none)
    else if existing_lock.expires_at > now then
      (t1, false, some (lockInfoOfRow existing_lock))
    else
      (updateRegion t1 region_lower
        { existing_lock with
          locked_by_email := user.email
          locked_by_name := user.name
          locked_at := now
          expires_at := expires_at }, true, none)
  | none =>
    let t2 := insert_on_duplicate_key_update t1
      { region := region_lower
        locked_by_email := user.email
        locked_by_name := user.name
        locked_at := now
        expires_at := expires_at }
    match selectRegion t2 region_lower with
    | some lock =>
      if lock.locked_by_email = user.email then (t2, true, none)
      else (t2, false, some (lockInfoOfRow lock))
    | none =>
      (t2, false, some
        { region := region_lower
          is_locked := true
          locked_by_email := some "unknown"
          locked_by_name := none
          locked_at := some now
          expires_at := some now })

/-- Embedding of `release_lock` (lines 182-244): no row means already
released (`true`); a row held by someone else is refused (`false`, no
mutation); otherwise the row is deleted (`true`).  `expires_at` is never
consulted. -/
def release_lock (t : Table) (region : String) (user : User) : Table × Bool :=
  let region_lower := str_lower region
  match selectRegion t region_lower with
  | none => (t, true)
  | some lock =>
    if lock.locked_by_email ≠ user.email then (t, false)
    else (t.filter (fun row => !(row.region == region_lower)), true)

/-- Embedding of `get_lock_status` (lines 296-331): a pure read reporting
locked only when a row exists with `expires_at > now`. -/
def get_lock_status (t : Table) (region : String) (now : Int) : RegionLockInfo :=
  let region_lower := str_lower region
  match selectRegion t region_lower with
  | some lock =>
    if lock.expires_at > now then lockInfoOfRow lock else unlockedInfo region_lower
  | none => unlockedInfo region_lower

/-- Embedding of `get_all_lock_statuses` (lines 338-372): storage-level
filter `expires_at > now`, one always-locked entry per surviving row, keyed
by the row's region. -/
def get_all_lock_statuses (t : Table) (now : Int) : List (String × RegionLockInfo) :=
  (t.filter (fun row => decide (row.expires_at > now))).map
    (fun row => (row.region, lockInfoOfRow row))

example : str_lower "CBG" = "cbg" := by decide

example :
    acquire_lock [] "cbg" { email := "alice@example.com", name := some "Alice" } 300 0 =
      ([{ region := "cbg", locked_by_email := "alice@example.com",
          locked_by_name := some "Alice", locked_at := 0, expires_at := 300 }],
       true, none) := by decide

/-- Uniqueness of rows per region under the table's unique key. -/
theorem WF_unique {t : Table} (hwf : WF t) {x y : RegionPushLockDB}
    (hx : x ∈ t) (hy : y ∈ t) (h : x.region = y.region) : x = y :=
  List.inj_on_of_nodup_map hwf hx hy h

/-- A row found by `selectRegion` is in the table and has the queried region. -/
theorem selectRegion_mem {t : Table} {r : String} {row : RegionPushLockDB}
    (h : selectRegion t r = some row) : row ∈ t ∧ row.region = r := by
  induction t with
  | nil => simp [selectRegion] at h
  | cons a rest ih =>
    by_cases ha : a.region = r
    · simp only [selectRegion, if_pos ha, Option.some.injEq] at h
      subst h
      exact ⟨List.mem_cons_self a rest, ha⟩
    · simp only [selectRegion, if_neg ha] at h
      exact ⟨List.mem_cons_of_mem a (ih h).1, (ih h).2⟩

/-- Characterization of an empty `selectRegion` result. -/
theorem selectRegion_eq_none {t : Table} {r : String} :
    selectRegion t r = none ↔ ∀ row ∈ t, row.region ≠ r := by
  induction t with
  | nil => simp [selectRegion]
  | cons a rest ih =>
    by_cases ha : a.region = r <;> simp [selectRegion, ha, ih]

/-- In a well-formed table, `selectRegion` finds any member row by its own
region. -/
theorem WF_selectRegion {t : Table} {row : RegionPushLockDB}
    (hwf : WF t) (hmem : row ∈ t) : selectRegion t row.region = some row := by
  induction t with
  | nil => cases hmem
  | cons a rest ih =>
    simp only [WF, List.map_cons, List.nodup_cons] at hwf
    rcases List.mem_cons.mp hmem with h | h
    · subst h
      simp [selectRegion]
    · by_cases ha : a.region = row.region
      · exact absurd (by rw [ha]; exact List.mem_map_of_mem _ h) hwf.1
      · simp only [selectRegion, if_neg ha]
        exact ih hwf.2 h

/-- Appending a fresh row is found by `selectRegion` when no earlier row has
the region. -/
theorem selectRegion_append {t : Table} {r : String} {v : RegionPushLockDB}
    (h : selectRegion t r = none) (hv : v.region = r) :
    selectRegion (t ++ [v]) r = some v := by
  induction t with
  | nil => simp [selectRegion, if_pos hv]
  | cons a rest ih =>
    by_cases ha : a.region = r
    · simp [selectRegion, if_pos ha] at h
    · simp only [selectRegion, if_neg ha] at h
      simpa [selectRegion, if_neg ha] using ih h

/-- Updating the found region's row makes `selectRegion` return the new
value. -/
theorem selectRegion_update {t : Table} {r : String} {row v : RegionPushLockDB}
    (h : selectRegion t r = some row) (hv : v.region = r) :
    selectRegion (updateRegion t r v) r = some v := by
  induction t with
  | nil => simp [selectRegion] at h
  | cons a rest ih =>
    by_cases ha : a.region = r
    · simp [updateRegion, selectRegion, if_pos ha, if_pos hv]
    · simp only [selectRegion, if_neg ha] at h
      simpa [updateRegion, selectRegion, if_neg ha] using ih h

/-- The region-scoped expiry sweep inside `acquire_lock` leaves a well-formed
table unchanged when the region's unique row is not strictly expired. -/
theorem cleanup_filter_noop {t : Table} {q : String} {row : RegionPushLockDB} {now : Int}
    (hwf : WF t) (h : selectRegion t q = some row) (hexp : ¬ row.expires_at < now) :
    t.filter (fun x => !(x.region == q && decide (x.expires_at < now))) = t := by
  apply List.filter_eq_self.mpr
  intro x hx
  by_cases hq : x.region = q
  · have hxr : x = row :=
      WF_unique hwf hx (selectRegion_mem h).1 (by rw [hq, (selectRegion_mem h).2])
    subst hxr
    simp [hq, hexp]
  · simp [hq]

/-- Filtering preserves the unique-region invariant. -/
theorem WF_filter {t : Table} (p : RegionPushLockDB → Bool) (hwf : WF t) :
    WF (t.filter p) :=
  List.Nodup.sublist ((List.filter_sublist t).map _) hwf

/-- Updating a region's row in place preserves the unique-region invariant. -/
theorem WF_updateRegion {t : Table} {r : String} {v : RegionPushLockDB}
    (hv : v.region = r) (hwf : WF t) : WF (updateRegion t r v) := by
  have hmap : (updateRegion t r v).map (fun row => row.region) =
      t.map (fun row => row.region) := by
    unfold updateRegion
    rw [List.map_map]
    exact List.map_congr_left (fun a _ => by
      by_cases h : a.region = r <;> simp [Function.comp, h, hv])
  unfold WF
  rw [hmap]
  exact hwf

/-- Appending a row for an absent region preserves the unique-region
invariant. -/
theorem WF_append {t : Table} {v : RegionPushLockDB}
    (h : selectRegion t v.region = none) (hwf : WF t) : WF (t ++ [v]) := by
  unfold WF
  rw [List.map_append, List.nodup_append]
  refine ⟨hwf, List.nodup_singleton _, ?_⟩
  intro x hx hx2
  simp only [List.map_cons, List.map_nil, List.mem_singleton] at hx2
  subst hx2
  rcases List.mem_map.mp hx with ⟨row, hrow, hxr⟩
  exact (selectRegion_eq_none.mp h row hrow) (by simpa using hxr)

/-- With no conflicting region present, the upsert statement is a plain
insert. -/
theorem upsert_no_conflict {t : Table} {vals : RegionPushLockDB}
    (h : selectRegion t vals.region = none) :
    insert_on_duplicate_key_update t vals = t ++ [vals] := by
  unfold insert_on_duplicate_key_update
  rw [if_neg]
  simp only [List.any_eq_true, not_exists, not_and]
  intro x hx
  simpa using selectRegion_eq_none.mp h x hx

/-- C2 (mutual exclusion): in any reachable (well-formed) table state holding
an unexpired row for the region owned by identity A, an `acquire_lock` call by
any different identity B is denied — it returns `granted = false` together
with A's lock info, and the table is left exactly unchanged.  Hence no second
identity is ever granted while an unexpired, unreleased lock stands. -/
theorem acquire_mutual_exclusion (t : Table) (region : String)
    (rowA : RegionPushLockDB) (uB : User) (timeout_seconds now : Int)
    (hwf : WF t) (hsel : selectRegion t (str_lower region) = some rowA)
    (hexp : now < rowA.expires_at) (hne : rowA.locked_by_email ≠ uB.email) :
    acquire_lock t region uB timeout_seconds now = (t, false, some (lockInfoOfRow rowA)) := by
  have hclean : (cleanup_expired_locks t (some (str_lower region)) now).1 = t := by
    unfold cleanup_expired_locks
    simp only [str_lower_idem]
    exact cleanup_filter_noop hwf hsel (by omega)
  simp only [acquire_lock, hclean, hsel]
  rw [if_neg hne, if_pos hexp]

def aliceRow : RegionPushLockDB where
  region := "cbg"
  locked_by_email := "alice@example.com"
  locked_by_name := some "Alice"
  locked_at := 0
  expires_at := 300

def alice : User where
  email := "alice@example.com"
  name := some "Alice"

def bob : User where
  email := "bob@example.com"
  name := some "Bob"

/-- Witness for C2: bob is denied at t=10 while alice's lease runs to 300. -/
theorem acquire_mutual_exclusion_witness :
    acquire_lock [aliceRow] "cbg" bob 300 10 =
      ([aliceRow], false, some (lockInfoOfRow aliceRow)) :=
  acquire_mutual_exclusion [aliceRow] "cbg" aliceRow bob 300 10
    (by unfold WF; decide) (by decide) (by decide) (by decide)

/-- The table component of the region-scoped sweep, unfolded. -/
theorem cleanup_some_fst (t : Table) (q : String) (now : Int) :
    (cleanup_expired_locks t (some q) now).1 =
      t.filter (fun row => !(row.region == str_lower q && decide (row.expires_at < now))) :=
  rfl

/-- Branch lemma: with no row surviving the sweep for the region,
`acquire_lock` inserts a fresh row and reports success. -/
theorem acquire_branch_none (t : Table) (region : String) (u : User) (timeout_seconds now : Int)
    (hnone : selectRegion ((cleanup_expired_locks t (some (str_lower region)) now).1)
      (str_lower region) = none) :
    acquire_lock t region u timeout_seconds now =
      ((cleanup_expired_locks t (some (str_lower region)) now).1 ++
        [{ region := str_lower region, locked_by_email := u.email, locked_by_name := u.name,
           locked_at := now, expires_at := now + timeout_seconds }], true, none) := by
  have hnone2 : selectRegion ((cleanup_expired_locks t (some (str_lower region)) now).1)
      (({ region := str_lower region, locked_by_email := u.email, locked_by_name := u.name,
          locked_at := now, expires_at := now + timeout_seconds } : RegionPushLockDB)).region
      = none := hnone
  have hup := upsert_no_conflict hnone2
  have hv0 : ((
      { region := str_lower region, locked_by_email := u.email, locked_by_name := u.name,
          locked_at := now, expires_at := now + timeout_seconds } : RegionPushLockDB)).region
      = str_lower region := rfl
  have hsel2 := selectRegion_append hnone hv0
  simp only [acquire_lock, hnone, hup, hsel2]
  simp

/-- Branch lemma: an existing row held by the caller is refreshed. -/
theorem acquire_branch_refresh (t : Table) (region : String) (u : User)
    (timeout_seconds now : Int) (row : RegionPushLockDB)
    (hsel1 : selectRegion ((cleanup_expired_locks t (some (str_lower region)) now).1)
      (str_lower region) = some row)
    (hemail : row.locked_by_email = u.email) :
    acquire_lock t region u timeout_seconds now =
      (updateRegion ((cleanup_expired_locks t (some (str_lower region)) now).1)
        (str_lower region) { row with locked_at := now, expires_at := now + timeout_seconds },
       true, none) := by
  simp only [acquire_lock, hsel1, if_pos hemail]

/-- Branch lemma: an existing unexpired row held by someone else blocks the
caller with no mutation beyond the sweep. -/
theorem acquire_branch_blocked (t : Table) (region : String) (u : User)
    (timeout_seconds now : Int) (row : RegionPushLockDB)
    (hsel1 : selectRegion ((cleanup_expired_locks t (some (str_lower region)) now).1)
      (str_lower region) = some row)
    (hemail : row.locked_by_email ≠ u.email)
    (hgt : row.expires_at > now) :
    acquire_lock t region u timeout_seconds now =
      ((cleanup_expired_locks t (some (str_lower region)) now).1,
       false, some (lockInfoOfRow row)) := by
  simp only [acquire_lock, hsel1]
  rw [if_neg hemail, if_pos hgt]

/-- Branch lemma: an existing expired row held by someone else is taken
over. -/
theorem acquire_branch_takeover (t : Table) (region : String) (u : User)
    (timeout_seconds now : Int) (row : RegionPushLockDB)
    (hsel1 : selectRegion ((cleanup_expired_locks t (some (str_lower region)) now).1)
      (str_lower region) = some row)
    (hemail : row.locked_by_email ≠ u.email)
    (hgt : ¬ row.expires_at > now) :
    acquire_lock t region u timeout_seconds now =
      (updateRegion ((cleanup_expired_locks t (some (str_lower region)) now).1)
        (str_lower region)
        { row with locked_by_email := u.email, locked_by_name := u.name,
                   locked_at := now, expires_at := now + timeout_seconds },
       true, none) := by
  simp only [acquire_lock, hsel1]
  rw [if_neg hemail, if_neg hgt]

/-- Branch lemma: releasing with no row present is an idempotent success. -/
theorem release_no_row (t : Table) (region : String) (u : User)
    (hsel : selectRegion t (str_lower region) = none) :
    release_lock t region u = (t, true) := by
  simp only [release_lock, hsel]

/-- Branch lemma: releasing a row held by someone else is refused without
mutation. -/
theorem release_denied (t : Table) (region : String) (u : User) (row : RegionPushLockDB)
    (hsel : selectRegion t (str_lower region) = some row)
    (hne : row.locked_by_email ≠ u.email) :
    release_lock t region u = (t, false) := by
  simp only [release_lock, hsel]
  rw [if_pos hne]

/-- Branch lemma: releasing one's own row deletes it. -/
theorem release_owned (t : Table) (region : String) (u : User) (row : RegionPushLockDB)
    (hsel : selectRegion t (str_lower region) = some row)
    (he : row.locked_by_email = u.email) :
    release_lock t region u =
      (t.filter (fun x => !(x.region == str_lower region)), true) := by
  simp only [release_lock, hsel]
  rw [if_neg (not_not_intro he)]

/-- C3 (expiry takeover): when the region's row is held by identity A with
`expires_at <= now`, an acquire by a different identity B is granted with no
conflict info, B is recorded as holder with `locked_at = now` and
`expires_at = now + timeout`, and a subsequent release by A returns `false`
with no mutation. -/
theorem acquire_expiry_takeover (t : Table) (region : String) (rowA : RegionPushLockDB)
    (uA uB : User) (timeout_seconds now : Int)
    (hwf : WF t) (hsel : selectRegion t (str_lower region) = some rowA)
    (hexp : rowA.expires_at ≤ now) (hne : rowA.locked_by_email ≠ uB.email)
    (hA : uA.email = rowA.locked_by_email) :
    (acquire_lock t region uB timeout_seconds now).2.1 = true ∧
    (acquire_lock t region uB timeout_seconds now).2.2 = none ∧
    selectRegion (acquire_lock t region uB timeout_seconds now).1 (str_lower region) =
      some { region := str_lower region, locked_by_email := uB.email,
             locked_by_name := uB.name, locked_at := now,
             expires_at := now + timeout_seconds } ∧
    release_lock (acquire_lock t region uB timeout_seconds now).1 region uA =
      ((acquire_lock t region uB timeout_seconds now).1, false) := by
  have hrg : rowA.region = str_lower region := (selectRegion_mem hsel).2
  have hmem : rowA ∈ t := (selectRegion_mem hsel).1
  have key : selectRegion (acquire_lock t region uB timeout_seconds now).1 (str_lower region) =
      some { region := str_lower region, locked_by_email := uB.email,
             locked_by_name := uB.name, locked_at := now,
             expires_at := now + timeout_seconds } ∧
      (acquire_lock t region uB timeout_seconds now).2.1 = true ∧
      (acquire_lock t region uB timeout_seconds now).2.2 = none := by
    by_cases hlt : rowA.expires_at < now
    · have hnone : selectRegion ((cleanup_expired_locks t (some (str_lower region)) now).1)
          (str_lower region) = none := by
        apply selectRegion_eq_none.mpr
        intro x hx hxr
        rw [cleanup_some_fst, str_lower_idem] at hx
        have hx' := List.mem_filter.mp hx
        have hxe : x = rowA := WF_unique hwf hx'.1 hmem (by rw [hxr, hrg])
        subst hxe
        simp [hxr, hlt] at hx'
      rw [acquire_branch_none t region uB timeout_seconds now hnone]
      exact ⟨selectRegion_append hnone rfl, rfl, rfl⟩
    · have ht1 : (cleanup_expired_locks t (some (str_lower region)) now).1 = t := by
        rw [cleanup_some_fst, str_lower_idem]
        exact cleanup_filter_noop hwf hsel hlt
      have hsel1 : selectRegion ((cleanup_expired_locks t (some (str_lower region)) now).1)
          (str_lower region) = some rowA := by rw [ht1]; exact hsel
      have hgt : ¬ rowA.expires_at > now := by omega
      rw [acquire_branch_takeover t region uB timeout_seconds now rowA hsel1 hne hgt]
      refine ⟨?_, rfl, rfl⟩
      have hv : ({ rowA with
            locked_by_email := uB.email
            locked_by_name := uB.name
            locked_at := now
            expires_at := now + timeout_seconds } : RegionPushLockDB) =
          { region := str_lower region, locked_by_email := uB.email, locked_by_name := uB.name,
            locked_at := now, expires_at := now + timeout_seconds } := by
        rw [← hrg]
      exact hv ▸ selectRegion_update hsel1 hrg
  obtain ⟨hselB, hgr, hinfo⟩ := key
  refine ⟨hgr, hinfo, hselB, ?_⟩
  exact release_denied _ region uA _ hselB (fun h => hne ((h.trans hA).symm))

/-- Witness for C3 at the concrete state: alice's lease expired at 300, bob
takes over at t=400, alice's release is then refused. -/
theorem acquire_expiry_takeover_witness :
    (acquire_lock [aliceRow] "cbg" bob 300 400).2.1 = true ∧
    (acquire_lock [aliceRow] "cbg" bob 300 400).2.2 = none ∧
    selectRegion (acquire_lock [aliceRow] "cbg" bob 300 400).1 (str_lower "cbg") =
      some { region := str_lower "cbg", locked_by_email := bob.email,
             locked_by_name := bob.name, locked_at := 400, expires_at := 400 + 300 } ∧
    release_lock (acquire_lock [aliceRow] "cbg" bob 300 400).1 "cbg" alice =
      ((acquire_lock [aliceRow] "cbg" bob 300 400).1, false) :=
  acquire_expiry_takeover [aliceRow] "cbg" aliceRow alice bob 300 400
    (by unfold WF; decide) (by decide) (by decide) (by decide) (by decide)

/-- The region-scoped sweep preserves well-formedness. -/
theorem WF_cleanup_some (t : Table) (q : String) (now : Int) (hwf : WF t) :
    WF (cleanup_expired_locks t (some q) now).1 := by
  rw [cleanup_some_fst]
  exact WF_filter _ hwf

/-- Characterization of any granted `acquire_lock` call: the table stays
well-formed and afterwards the region's unique row carries the caller's
email, `locked_at = now` and `expires_at = now + timeout` (the name field is
the caller's except on the refresh path, which leaves it untouched). -/
theorem acquire_granted_select (t : Table) (region : String) (u : User)
    (timeout_seconds now : Int) (hwf : WF t)
    (hgr : (acquire_lock t region u timeout_seconds now).2.1 = true) :
    WF (acquire_lock t region u timeout_seconds now).1 ∧
    ∃ nm, selectRegion (acquire_lock t region u timeout_seconds now).1 (str_lower region) =
      some { region := str_lower region, locked_by_email := u.email, locked_by_name := nm,
             locked_at := now, expires_at := now + timeout_seconds } := by
  have hwf1 : WF (cleanup_expired_locks t (some (str_lower region)) now).1 :=
    WF_cleanup_some t (str_lower region) now hwf
  rcases h1 : selectRegion ((cleanup_expired_locks t (some (str_lower region)) now).1)
      (str_lower region) with _ | row
  · rw [acquire_branch_none t region u timeout_seconds now h1]
    exact ⟨WF_append h1 hwf1, u.name, selectRegion_append h1 rfl⟩
  · have hrg : row.region = str_lower region := (selectRegion_mem h1).2
    by_cases he : row.locked_by_email = u.email
    · rw [acquire_branch_refresh t region u timeout_seconds now row h1 he]
      refine ⟨WF_updateRegion hrg hwf1, row.locked_by_name, ?_⟩
      have hv : ({ row with
            locked_at := now
            expires_at := now + timeout_seconds } : RegionPushLockDB) =
          { region := str_lower region, locked_by_email := u.email,
            locked_by_name := row.locked_by_name, locked_at := now,
            expires_at := now + timeout_seconds } := by
        rw [← hrg, ← he]
      exact hv ▸ selectRegion_update h1 hrg
    · by_cases hgt : row.expires_at > now
      · rw [acquire_branch_blocked t region u timeout_seconds now row h1 he hgt] at hgr
        simp at hgr
      · rw [acquire_branch_takeover t region u timeout_seconds now row h1 he hgt]
        refine ⟨WF_updateRegion hrg hwf1, u.name, ?_⟩
        have hv : ({ row with
              locked_by_email := u.email
              locked_by_name := u.name
              locked_at := now
              expires_at := now + timeout_seconds } : RegionPushLockDB) =
            { region := str_lower region, locked_by_email := u.email,
              locked_by_name := u.name, locked_at := now,
              expires_at := now + timeout_seconds } := by
          rw [← hrg]
        exact hv ▸ selectRegion_update h1 hrg

/-- C4 (idempotent refresh): after any granted acquire by `u` at time `tA`, a
repeated acquire by the same identity before expiry (`tA ≤ tB < tA +
timeout`) is granted with no conflict info, the stored row is refreshed to
`locked_at = tB`, `expires_at = tB + timeout`, and the new `expires_at` is
not earlier than the stored one (`tA + timeout`): the lease is extended
monotonically forward. -/
theorem acquire_refresh_monotone (t : Table) (region : String) (u : User)
    (timeout_seconds tA tB : Int) (hwf : WF t)
    (hgr : (acquire_lock t region u timeout_seconds tA).2.1 = true)
    (hle : tA ≤ tB) (hlt : tB < tA + timeout_seconds) :
    (acquire_lock (acquire_lock t region u timeout_seconds tA).1
      region u timeout_seconds tB).2.1 = true ∧
    (acquire_lock (acquire_lock t region u timeout_seconds tA).1
      region u timeout_seconds tB).2.2 = none ∧
    (∃ nm, selectRegion (acquire_lock (acquire_lock t region u timeout_seconds tA).1
        region u timeout_seconds tB).1 (str_lower region) =
      some { region := str_lower region, locked_by_email := u.email, locked_by_name := nm,
             locked_at := tB, expires_at := tB + timeout_seconds }) ∧
    (∀ rowOld, selectRegion (acquire_lock t region u timeout_seconds tA).1
        (str_lower region) = some rowOld →
      rowOld.expires_at ≤ tB + timeout_seconds) := by
  obtain ⟨hwf1, nm, hsel1⟩ := acquire_granted_select t region u timeout_seconds tA hwf hgr
  have ht1 : (cleanup_expired_locks (acquire_lock t region u timeout_seconds tA).1
      (some (str_lower region)) tB).1 = (acquire_lock t region u timeout_seconds tA).1 := by
    rw [cleanup_some_fst, str_lower_idem]
    refine cleanup_filter_noop hwf1 hsel1 ?_
    show ¬ (tA + timeout_seconds < tB)
    omega
  have hsel1' : selectRegion ((cleanup_expired_locks
      (acquire_lock t region u timeout_seconds tA).1 (some (str_lower region)) tB).1)
      (str_lower region) =
      some { region := str_lower region, locked_by_email := u.email, locked_by_name := nm,
             locked_at := tA, expires_at := tA + timeout_seconds } := by
    rw [ht1]
    exact hsel1
  rw [acquire_branch_refresh (acquire_lock t region u timeout_seconds tA).1
    region u timeout_seconds tB _ hsel1' rfl]
  refine ⟨rfl, rfl, ⟨nm, selectRegion_update hsel1' rfl⟩, ?_⟩
  intro rowOld hsO
  rw [hsel1] at hsO
  injection hsO with h
  rw [← h]
  show tA + timeout_seconds ≤ tB + timeout_seconds
  omega

def carol : User where
  email := "carol@example.com"
  name := some "Carol"

/-- Witness for C4 matching the spec's example: carol acquires `dub` at t=0
with timeout 300, re-acquires at t=100, and the lease is refreshed to 400. -/
theorem acquire_refresh_monotone_witness :
    (acquire_lock (acquire_lock [] "dub" carol 300 0).1 "dub" carol 300 100).2.1 = true ∧
    (acquire_lock (acquire_lock [] "dub" carol 300 0).1 "dub" carol 300 100).2.2 = none ∧
    (∃ nm, selectRegion (acquire_lock (acquire_lock [] "dub" carol 300 0).1
        "dub" carol 300 100).1 (str_lower "dub") =
      some { region := str_lower "dub", locked_by_email := carol.email, locked_by_name := nm,
             locked_at := 100, expires_at := 100 + 300 }) ∧
    (∀ rowOld, selectRegion (acquire_lock [] "dub" carol 300 0).1
        (str_lower "dub") = some rowOld →
      rowOld.expires_at ≤ 100 + 300) :=
  acquire_refresh_monotone [] "dub" carol 300 0 100
    (by unfold WF; decide) (by decide) (by decide) (by decide)

/-- C1 (refuted — code bug): the `ON DUPLICATE KEY UPDATE` statement built in
`acquire_lock`'s no-row path overwrites a conflicting row's holder fields
even when that row is unexpired.  Concretely: alice's row expires at 300,
the statement executed at now=0 with bob's values (as `acquire_lock` would
build them) replaces alice as holder — contradicting the claim (and the
source's own comment "Only update if the existing lock is expired") that an
unexpired race winner's row is left untouched. -/
theorem upsert_overwrites_unexpired_row :
    (0 : Int) < aliceRow.expires_at ∧
    aliceRow.locked_by_email ≠ bob.email ∧
    insert_on_duplicate_key_update [aliceRow]
      { region := "cbg", locked_by_email := bob.email, locked_by_name := bob.name,
        locked_at := 0, expires_at := 0 + 300 } =
      [{ region := "cbg", locked_by_email := bob.email, locked_by_name := bob.name,
         locked_at := 0, expires_at := 300 }] := by
  decide

/-- Pushing a change of every row's `expires_at` through `selectRegion`:
lookup commutes with the field rewrite because regions are untouched. -/
theorem selectRegion_map_expires (t : Table) (r : String) (f : Int → Int) :
    selectRegion (t.map (fun row => { row with expires_at := f row.expires_at })) r =
      (selectRegion t r).map (fun row => { row with expires_at := f row.expires_at }) := by
  induction t with
  | nil => rfl
  | cons a rest ih =>
    by_cases ha : a.region = r <;> simp [selectRegion, ha, ih]

/-- C5 (release postcondition): with no row the release is a no-op success
(and so is an immediate second release); with a row held by someone else it
is a refusal with no mutation; with the caller's own row it deletes the row
(a second release then also succeeds).  The final conjunct shows release
never consults `expires_at`: rewriting every row's expiry arbitrarily
changes neither the outcome nor anything but the rewritten fields. -/
theorem release_lock_spec (t : Table) (region : String) (u : User) :
    (selectRegion t (str_lower region) = none →
      release_lock t region u = (t, true) ∧
      release_lock (release_lock t region u).1 region u =
        ((release_lock t region u).1, true)) ∧
    (∀ row, selectRegion t (str_lower region) = some row →
      row.locked_by_email ≠ u.email →
      release_lock t region u = (t, false)) ∧
    (∀ row, selectRegion t (str_lower region) = some row →
      row.locked_by_email = u.email →
      (release_lock t region u).2 = true ∧
      selectRegion (release_lock t region u).1 (str_lower region) = none ∧
      release_lock (release_lock t region u).1 region u =
        ((release_lock t region u).1, true)) ∧
    (∀ f : Int → Int,
      release_lock (t.map (fun row => { row with expires_at := f row.expires_at })) region u =
        ((release_lock t region u).1.map
          (fun row => { row with expires_at := f row.expires_at }),
         (release_lock t region u).2)) := by
  refine ⟨?_, ?_, ?_, ?_⟩
  · intro hnone
    have h1 := release_no_row t region u hnone
    refine ⟨h1, ?_⟩
    rw [h1]
    exact release_no_row t region u hnone
  · intro row hsel hne
    exact release_denied t region u row hsel hne
  · intro row hsel he
    have h1 := release_owned t region u row hsel he
    have hgone : selectRegion (release_lock t region u).1 (str_lower region) = none := by
      rw [h1]
      apply selectRegion_eq_none.mpr
      intro x hx
      have := (List.mem_filter.mp hx).2
      simpa using this
    refine ⟨by rw [h1], hgone, release_no_row _ region u hgone⟩
  · intro f
    rcases hsel : selectRegion t (str_lower region) with _ | row
    · have hsel' : selectRegion
          (t.map (fun row => { row with expires_at := f row.expires_at }))
          (str_lower region) = none := by
        rw [selectRegion_map_expires, hsel]
        rfl
      rw [release_no_row _ region u hsel', release_no_row t region u hsel]
    · have hsel' : selectRegion
          (t.map (fun row => { row with expires_at := f row.expires_at }))
          (str_lower region) = some { row with expires_at := f row.expires_at } := by
        rw [selectRegion_map_expires, hsel]
        rfl
      by_cases he : row.locked_by_email = u.email
      · rw [release_owned _ region u _ hsel' he, release_owned t region u row hsel he]
        rw [List.filter_map]
        refine congrArg (fun x => (x, true)) ?_
        refine congrArg _ ?_
        apply List.filter_congr
        intro x _
        rfl
      · rw [release_denied _ region u _ hsel' he, release_denied t region u row hsel he]

/-- Witness for C5: releasing an empty table succeeds; bob cannot release
alice's row; alice's own release deletes the row. -/
theorem release_lock_spec_witness :
    release_lock [] "cbg" alice = ([], true) ∧
    release_lock [aliceRow] "cbg" bob = ([aliceRow], false) ∧
    (release_lock [aliceRow] "cbg" alice).2 = true ∧
    selectRegion (release_lock [aliceRow] "cbg" alice).1 (str_lower "cbg") = none :=
  ⟨((release_lock_spec [] "cbg" alice).1 (by decide)).1,
   (release_lock_spec [aliceRow] "cbg" bob).2.1 aliceRow (by decide) (by decide),
   ((release_lock_spec [aliceRow] "cbg" alice).2.2.1 aliceRow (by decide) (by decide)).1,
   ((release_lock_spec [aliceRow] "cbg" alice).2.2.1 aliceRow (by decide) (by decide)).2.1⟩

/-- C6 (status is a pure read with expiry semantics): `get_lock_status`
reports unlocked exactly when no row exists or the row's lease has passed
(`expires_at <= now`); with a live row it returns that row's holder fields
verbatim; whenever it reports unlocked it carries no holder fields.  The
embedding returns no table because the source function executes only a
select — it cannot mutate, and expired rows are left in place. -/
theorem get_lock_status_spec (t : Table) (region : String) (now : Int) :
    ((get_lock_status t region now).is_locked = false ↔
      (selectRegion t (str_lower region) = none ∨
        ∃ row, selectRegion t (str_lower region) = some row ∧ row.expires_at ≤ now)) ∧
    (∀ row, selectRegion t (str_lower region) = some row → row.expires_at > now →
      get_lock_status t region now = lockInfoOfRow row) ∧
    ((get_lock_status t region now).is_locked = false →
      get_lock_status t region now = unlockedInfo (str_lower region)) := by
  rcases hsel : selectRegion t (str_lower region) with _ | row
  · refine ⟨?_, ?_, ?_⟩
    · simp [get_lock_status, hsel, unlockedInfo]
    · intro row hrow
      exact Option.noConfusion hrow
    · intro _
      simp [get_lock_status, hsel]
  · by_cases hgt : row.expires_at > now
    · refine ⟨?_, ?_, ?_⟩
      · simp only [get_lock_status, hsel, if_pos hgt]
        constructor
        · intro h
          simp [lockInfoOfRow] at h
        · rintro (h | ⟨row2, hrow2, hle⟩)
          · exact Option.noConfusion h
          · injection hrow2 with h2
            subst h2
            exfalso
            omega
      · intro row2 hrow2 _
        injection hrow2 with h2
        subst h2
        simp [get_lock_status, hsel, if_pos hgt]
      · intro h
        simp only [get_lock_status, hsel, if_pos hgt] at h
        simp [lockInfoOfRow] at h
    · refine ⟨?_, ?_, ?_⟩
      · simp only [get_lock_status, hsel, if_neg hgt]
        constructor
        · intro _
          exact Or.inr ⟨row, rfl, by omega⟩
        · intro _
          simp [unlockedInfo]
      · intro row2 hrow2 hgt2
        injection hrow2 with h2
        subst h2
        exact absurd hgt2 hgt
      · intro _
        simp [get_lock_status, hsel, if_neg hgt]

/-- Witness for C6: at t=50 the status of `cbg` is alice's live lock, and at
t=301 it is reported unlocked. -/
theorem get_lock_status_spec_witness :
    get_lock_status [aliceRow] "cbg" 50 = lockInfoOfRow aliceRow ∧
    get_lock_status [aliceRow] "cbg" 301 = unlockedInfo (str_lower "cbg") :=
  ⟨(get_lock_status_spec [aliceRow] "cbg" 50).2.1 aliceRow (by decide) (by decide),
   (get_lock_status_spec [aliceRow] "cbg" 301).2.2 (by decide)⟩

/-- A live head row contributes its entry to `get_all_lock_statuses`. -/
theorem statusAll_cons_live (a : RegionPushLockDB) (rest : Table) (now : Int)
    (hexp : a.expires_at > now) :
    get_all_lock_statuses (a :: rest) now =
      (a.region, lockInfoOfRow a) :: get_all_lock_statuses rest now := by
  simp [get_all_lock_statuses, List.filter_cons, hexp]

/-- An expired head row is filtered out of `get_all_lock_statuses` at the
storage level. -/
theorem statusAll_cons_dead (a : RegionPushLockDB) (rest : Table) (now : Int)
    (hexp : ¬ a.expires_at > now) :
    get_all_lock_statuses (a :: rest) now = get_all_lock_statuses rest now := by
  simp [get_all_lock_statuses, List.filter_cons, hexp]

/-- Central lemma for C7: looking a region up in the `status_all` result is
the same as selecting its unique row and checking liveness. -/
theorem lookup_statusAll (t : Table) (now : Int) (r : String) (hwf : WF t) :
    (get_all_lock_statuses t now).lookup r =
      (match selectRegion t r with
       | some row => if row.expires_at > now then some (lockInfoOfRow row) else none
       | none => none) := by
  induction t with
  | nil => rfl
  | cons a rest ih =>
    simp only [WF, List.map_cons, List.nodup_cons] at hwf
    have ihr := ih hwf.2
    by_cases hexp : a.expires_at > now
    · rw [statusAll_cons_live a rest now hexp]
      by_cases har : a.region = r
      · subst har
        simp [List.lookup, selectRegion, hexp]
      · have hbeq : (r == a.region) = false := by
          simp [beq_eq_false_iff_ne]
          exact fun h => har h.symm
        simp only [List.lookup, hbeq]
        rw [ihr]
        simp [selectRegion, har]
    · rw [statusAll_cons_dead a rest now hexp]
      by_cases har : a.region = r
      · subst har
        have hnone : selectRegion rest a.region = none := by
          apply selectRegion_eq_none.mpr
          intro x hx hxr
          exact hwf.1 (by rw [← hxr]; exact List.mem_map_of_mem _ hx)
        rw [ihr, hnone]
        simp [selectRegion, hexp]
      · rw [ihr]
        simp [selectRegion, har]

/-- C7 (status_all consistency): every entry returned by
`get_all_lock_statuses` is an `is_locked = true` image of a stored row whose
lease is strictly live; every live stored row appears under its region key;
and for every region the individual `get_lock_status` answer coincides with
the `status_all` entry (absence meaning unlocked) at the same instant. -/
theorem status_all_consistency (t : Table) (now : Int) (hwf : WF t) :
    (∀ r info, (get_all_lock_statuses t now).lookup r = some info →
      info.is_locked = true ∧
      ∃ row, selectRegion t r = some row ∧ row.expires_at > now ∧
        info = lockInfoOfRow row) ∧
    (∀ row, row ∈ t → row.expires_at > now →
      (get_all_lock_statuses t now).lookup row.region = some (lockInfoOfRow row)) ∧
    (∀ region, get_lock_status t region now =
      ((get_all_lock_statuses t now).lookup (str_lower region)).getD
        (unlockedInfo (str_lower region))) := by
  refine ⟨?_, ?_, ?_⟩
  · intro r info h
    rw [lookup_statusAll t now r hwf] at h
    rcases hsel : selectRegion t r with _ | row
    · simp only [hsel] at h
      cases h
    · simp only [hsel] at h
      by_cases hexp : row.expires_at > now
      · rw [if_pos hexp] at h
        injection h with h2
        subst h2
        exact ⟨rfl, row, rfl, hexp, rfl⟩
      · rw [if_neg hexp] at h
        cases h
  · intro row hmem hexp
    have hsel := WF_selectRegion hwf hmem
    rw [lookup_statusAll t now row.region hwf]
    simp only [hsel]
    rw [if_pos hexp]
  · intro region
    rw [lookup_statusAll t now (str_lower region) hwf]
    rcases hsel : selectRegion t (str_lower region) with _ | row
    · simp [get_lock_status, hsel]
    · by_cases hexp : row.expires_at > now <;> simp [get_lock_status, hsel, hexp]

/-- Witness for C7: on a one-row table at t=50 the individual status call
agrees with the status_all lookup, and alice's live row appears keyed by its
region. -/
theorem status_all_consistency_witness :
    get_lock_status [aliceRow] "cbg" 50 =
      ((get_all_lock_statuses [aliceRow] 50).lookup (str_lower "cbg")).getD
        (unlockedInfo (str_lower "cbg")) ∧
    (get_all_lock_statuses [aliceRow] 50).lookup aliceRow.region =
      some (lockInfoOfRow aliceRow) :=
  ⟨(status_all_consistency [aliceRow] 50 (by unfold WF; decide)).2.2 "cbg",
   (status_all_consistency [aliceRow] 50 (by unfold WF; decide)).2.1 aliceRow
     (by decide) (by decide)⟩

def daveRow : RegionPushLockDB where
  region := "dal"
  locked_by_email := "dave@example.com"
  locked_by_name := some "Dave"
  locked_at := 0
  expires_at := 5

/-- C8 counterexample: a row whose lease ends exactly at `now`
(`expires_at = now`, hence `expires_at <= now`) is NOT deleted by
`cleanup_expired_locks` — the statement filters `expires_at < now`
strictly — and the call returns 0, where the claim requires the row
deleted and count 1. -/
theorem cleanup_keeps_boundary_row :
    daveRow.expires_at ≤ (5 : Int) ∧
    cleanup_expired_locks [daveRow] none 5 = ([daveRow], 0) ∧
    cleanup_expired_locks [daveRow] (some "dal") 5 = ([daveRow], 0) := by
  decide

/-- Scope of the sweep's WHERE clause: the lowercased region when one is
given, everything otherwise. -/
def sweepScope (region : Option String) (row : RegionPushLockDB) : Bool :=
  match region with
  | some r => row.region == str_lower r
  | none => true

/-- C8 as amended (strict boundary): `cleanup_expired_locks` deletes exactly
the in-scope rows with `expires_at < now` (strictly earlier than now — a row
with `expires_at = now` survives), returns the number of rows deleted, and
is idempotent: an immediately repeated call deletes nothing and returns
0. -/
theorem cleanup_expired_locks_spec (t : Table) (region : Option String) (now : Int) :
    (∀ row, row ∈ (cleanup_expired_locks t region now).1 ↔
      (row ∈ t ∧ ¬(sweepScope region row = true ∧ row.expires_at < now))) ∧
    (cleanup_expired_locks t region now).2 + (cleanup_expired_locks t region now).1.length
      = t.length ∧
    cleanup_expired_locks (cleanup_expired_locks t region now).1 region now =
      ((cleanup_expired_locks t region now).1, 0) := by
  cases region with
  | none =>
    refine ⟨?_, ?_, ?_⟩
    · intro row
      simp [cleanup_expired_locks, sweepScope, List.mem_filter]
    · have h := @List.length_eq_length_filter_add _ t
        (fun row => decide (row.expires_at < now))
      simp only [cleanup_expired_locks]
      omega
    · simp only [cleanup_expired_locks]
      refine Prod.ext ?_ ?_
      · simp [List.filter_filter]
      · simp [List.filter_filter]
  | some r =>
    refine ⟨?_, ?_, ?_⟩
    · intro row
      simp [cleanup_expired_locks, sweepScope, List.mem_filter]
      tauto
    · have h := @List.length_eq_length_filter_add _ t
        (fun row => row.region == str_lower r && decide (row.expires_at < now))
      simp only [cleanup_expired_locks]
      omega
    · simp only [cleanup_expired_locks]
      refine Prod.ext ?_ ?_
      · simp [List.filter_filter]
      · simp [List.filter_filter]

/-- Transaction-instrumented `acquire_lock`.  Storage calls are numbered in
source order: 0 the sweep's DELETE, 1 the sweep's COMMIT, 2 the SELECT of
the existing row, 3 the refresh/takeover COMMIT or the INSERT execute, 4 the
INSERT's COMMIT, 5 the read-back SELECT.  `fault = some k` makes call `k`
raise; the handler rolls the session back (discarding uncommitted pending
statements) and re-raises, so the error carries the table as committed so
far — an `Except.error`, structurally distinct from the ordinary denied
`Except.ok (_, false, _)` result. -/
def acquire_lock_tx (t : Table) (region : String) (u : User)
    (timeout_seconds now : Int) (fault : Option Nat) :
    Except Table (Table × Bool × Option RegionLockInfo) :=
  let region_lower := str_lower region
  let expires_at := now + timeout_seconds
  if fault = some 0 then Except.error t else
  if fault = some 1 then Except.error t else
  let t1 := (cleanup_expired_locks t (some region_lower) now).1
  if fault = some 2 then Except.error t1 else
  match selectRegion t1 region_lower with
  | some existing_lock =>
    if existing_lock.locked_by_email = u.email then
      if fault = some 3 then Except.error t1 else
      Except.ok (updateRegion t1 region_lower
        { existing_lock with locked_at := now, expires_at := expires_at }, true, none)
    else if existing_lock.expires_at > now then
      Except.ok (t1, false, some (lockInfoOfRow existing_lock))
    else
      if fault = some 3 then Except.error t1 else
      Except.ok (updateRegion t1 region_lower
        { existing_lock with
          locked_by_email := u.email
          locked_by_name := u.name
          locked_at := now
          expires_at := expires_at }, true, none)
  | none =>
    if fault = some 3 then Except.error t1 else
    let t2 := insert_on_duplicate_key_update t1
      { region := region_lower
        locked_by_email := u.email
        locked_by_name := u.name
        locked_at := now
        expires_at := expires_at }
    if fault = some 4 then Except.error t1 else
    if fault = some 5 then Except.error t2 else
    Except.ok (match selectRegion t2 region_lower with
      | some lock =>
        if lock.locked_by_email = u.email then (t2, true, none)
        else (t2, false, some (lockInfoOfRow lock))
      | none =>
        (t2, false, some
          { region := region_lower
            is_locked := true
            locked_by_email := some "unknown"
            locked_by_name := none
            locked_at := some now
            expires_at := some now }))

/-- Transaction-instrumented `release_lock`: call 0 the SELECT, 1 the DELETE
execute, 2 the COMMIT.  A fault before the commit leaves nothing applied. -/
def release_lock_tx (t : Table) (region : String) (u : User) (fault : Option Nat) :
    Except Table (Table × Bool) :=
  let region_lower := str_lower region
  if fault = some 0 then Except.error t else
  match selectRegion t region_lower with
  | none => Except.ok (t, true)
  | some lock =>
    if lock.locked_by_email ≠ u.email then Except.ok (t, false)
    else
      if fault = some 1 then Except.error t else
      if fault = some 2 then Except.error t else
      Except.ok (t.filter (fun row => !(row.region == region_lower)), true)

/-- Transaction-instrumented `cleanup_expired_locks`: call 0 the DELETE
execute, 1 the COMMIT. -/
def cleanup_expired_locks_tx (t : Table) (region : Option String) (now : Int)
    (fault : Option Nat) : Except Table (Table × Nat) :=
  if fault = some 0 then Except.error t else
  if fault = some 1 then Except.error t else
  Except.ok (cleanup_expired_locks t region now)

/-- With no fault, the instrumented release agrees with the pure embedding. -/
theorem release_lock_tx_no_fault (t : Table) (region : String) (u : User) :
    release_lock_tx t region u none = Except.ok (release_lock t region u) := by
  simp only [release_lock_tx, release_lock]
  rcases hs : selectRegion t (str_lower region) with _ | lock
  · simp [hs]
  · by_cases he : lock.locked_by_email ≠ u.email <;> simp [hs, he]

/-- With no fault, the instrumented sweep agrees with the pure embedding. -/
theorem cleanup_expired_locks_tx_no_fault (t : Table) (region : Option String) (now : Int) :
    cleanup_expired_locks_tx t region now none =
      Except.ok (cleanup_expired_locks t region now) := by
  simp [cleanup_expired_locks_tx]

/-- With no fault, the instrumented acquire agrees with the pure embedding. -/
theorem acquire_lock_tx_no_fault (t : Table) (region : String) (u : User)
    (timeout_seconds now : Int) :
    acquire_lock_tx t region u timeout_seconds now none =
      Except.ok (acquire_lock t region u timeout_seconds now) := by
  simp only [acquire_lock_tx, acquire_lock]
  rcases hs : selectRegion ((cleanup_expired_locks t (some (str_lower region)) now).1)
      (str_lower region) with _ | row
  · simp only [hs]
    rcases hrb : selectRegion (insert_on_duplicate_key_update
        ((cleanup_expired_locks t (some (str_lower region)) now).1)
        { region := str_lower region, locked_by_email := u.email, locked_by_name := u.name,
          locked_at := now, expires_at := now + timeout_seconds })
        (str_lower region) with _ | l
    · simp [hrb]
    · by_cases hl : l.locked_by_email = u.email <;> simp [hrb, hl]
  · by_cases he : row.locked_by_email = u.email
    · simp [hs, he]
    · by_cases hgt : row.expires_at > now <;> simp [hs, he, hgt]

/-- C9 counterexample: `acquire_lock` is not a single transaction.  With
alice's expired row present, a storage failure at the statement following
the opportunistic sweep's commit (call 3) surfaces an error whose committed
table `[]` differs from the pre-call table — the sweep's deletion survives
the rollback, so the observable state on error is NOT unchanged from before
the operation. -/
theorem acquire_error_after_sweep_commit :
    acquire_lock_tx [aliceRow] "cbg" bob 300 400 (some 3) = Except.error [] ∧
    ([] : Table) ≠ [aliceRow] :=
  ⟨by rfl, by decide⟩

/-- C9 as amended: every storage failure rolls the open transaction back
before re-raising, and the error is structurally distinct from a denied
result.  `release_lock` and `cleanup_expired_locks` are single transactions,
so any fault leaves the table exactly unchanged.  `acquire_lock` commits up
to two transactions (the opportunistic sweep, then the main mutation), so on
error the observable table is the pre-state, the pre-state with the sweep's
expired-row deletions committed, or the fully committed post-state (fault in
the read-back after the main commit) — never a partially applied
transaction. -/
theorem storage_error_rollback :
    (∀ (t : Table) (region : String) (u : User) (k : Nat) (c : Table),
      release_lock_tx t region u (some k) = Except.error c → c = t) ∧
    (∀ (t : Table) (region : Option String) (now : Int) (k : Nat) (c : Table),
      cleanup_expired_locks_tx t region now (some k) = Except.error c → c = t) ∧
    (∀ (t : Table) (region : String) (u : User) (timeout_seconds now : Int)
        (k : Nat) (c : Table),
      acquire_lock_tx t region u timeout_seconds now (some k) = Except.error c →
        c = t ∨ c = (cleanup_expired_locks t (some (str_lower region)) now).1 ∨
        c = (acquire_lock t region u timeout_seconds now).1) := by
  refine ⟨?_, ?_, ?_⟩
  · intro t region u k c h
    simp only [release_lock_tx] at h
    by_cases h0 : (some k : Option Nat) = some 0
    · rw [if_pos h0] at h
      injection h with h2
      exact h2.symm
    · rw [if_neg h0] at h
      rcases hs : selectRegion t (str_lower region) with _ | lock
      · simp only [hs] at h
        exact Except.noConfusion h
      · simp only [hs] at h
        by_cases he : lock.locked_by_email ≠ u.email
        · rw [if_pos he] at h
          exact Except.noConfusion h
        · rw [if_neg he] at h
          by_cases h1 : (some k : Option Nat) = some 1
          · rw [if_pos h1] at h
            injection h with h2
            exact h2.symm
          · rw [if_neg h1] at h
            by_cases h2 : (some k : Option Nat) = some 2
            · rw [if_pos h2] at h
              injection h with h3
              exact h3.symm
            · rw [if_neg h2] at h
              exact Except.noConfusion h
  · intro t region now k c h
    simp only [cleanup_expired_locks_tx] at h
    by_cases h0 : (some k : Option Nat) = some 0
    · rw [if_pos h0] at h
      injection h with h2
      exact h2.symm
    · rw [if_neg h0] at h
      by_cases h1 : (some k : Option Nat) = some 1
      · rw [if_pos h1] at h
        injection h with h2
        exact h2.symm
      · rw [if_neg h1] at h
        exact Except.noConfusion h
  · intro t region u timeout_seconds now k c h
    simp only [acquire_lock_tx] at h
    by_cases h0 : (some k : Option Nat) = some 0
    · rw [if_pos h0] at h
      injection h with h2
      exact Or.inl h2.symm
    · rw [if_neg h0] at h
      by_cases h1 : (some k : Option Nat) = some 1
      · rw [if_pos h1] at h
        injection h with h2
        exact Or.inl h2.symm
      · rw [if_neg h1] at h
        by_cases h2 : (some k : Option Nat) = some 2
        · rw [if_pos h2] at h
          injection h with h3
          exact Or.inr (Or.inl h3.symm)
        · rw [if_neg h2] at h
          rcases hs : selectRegion ((cleanup_expired_locks t (some (str_lower region)) now).1)
              (str_lower region) with _ | row
          · simp only [hs] at h
            by_cases h3 : (some k : Option Nat) = some 3
            · rw [if_pos h3] at h
              injection h with h4
              exact Or.inr (Or.inl h4.symm)
            · rw [if_neg h3] at h
              by_cases h4 : (some k : Option Nat) = some 4
              · rw [if_pos h4] at h
                injection h with h5
                exact Or.inr (Or.inl h5.symm)
              · rw [if_neg h4] at h
                by_cases h5 : (some k : Option Nat) = some 5
                · rw [if_pos h5] at h
                  injection h with h6
                  refine Or.inr (Or.inr ?_)
                  rw [← h6]
                  have hpure : (acquire_lock t region u timeout_seconds now).1 =
                      insert_on_duplicate_key_update
                        ((cleanup_expired_locks t (some (str_lower region)) now).1)
                        { region := str_lower region, locked_by_email := u.email,
                          locked_by_name := u.name, locked_at := now,
                          expires_at := now + timeout_seconds } := by
                    simp only [acquire_lock, hs]
                    rcases hrb : selectRegion (insert_on_duplicate_key_update
                        ((cleanup_expired_locks t (some (str_lower region)) now).1)
                        { region := str_lower region, locked_by_email := u.email,
                          locked_by_name := u.name, locked_at := now,
                          expires_at := now + timeout_seconds })
                        (str_lower region) with _ | l
                    · rfl
                    · by_cases hl : l.locked_by_email = u.email <;> simp [hl]
                  exact hpure.symm
                · rw [if_neg h5] at h
                  exact Except.noConfusion h
          · simp only [hs] at h
            by_cases he : row.locked_by_email = u.email
            · rw [if_pos he] at h
              by_cases h3 : (some k : Option Nat) = some 3
              · rw [if_pos h3] at h
                injection h with h4
                exact Or.inr (Or.inl h4.symm)
              · rw [if_neg h3] at h
                exact Except.noConfusion h
            · rw [if_neg he] at h
              by_cases hgt : row.expires_at > now
              · rw [if_pos hgt] at h
                exact Except.noConfusion h
              · rw [if_neg hgt] at h
                by_cases h3 : (some k : Option Nat) = some 3
                · rw [if_pos h3] at h
                  injection h with h4
                  exact Or.inr (Or.inl h4.symm)
                · rw [if_neg h3] at h
                  exact Except.noConfusion h

/-- Witness for the amended C9: a fault at release's opening select errors
out with the table untouched. -/
theorem storage_error_rollback_witness :
    release_lock_tx [aliceRow] "cbg" alice (some 0) = Except.error [aliceRow] ∧
    ([aliceRow] : Table) = [aliceRow] :=
  ⟨by rfl, storage_error_rollback.1 [aliceRow] "cbg" alice 0 [aliceRow] (by rfl)⟩

/-- Rows of a different region pass through an in-place row update
untouched. -/
theorem mem_updateRegion_iff {t : Table} {r : String} (v : RegionPushLockDB)
    {oth : RegionPushLockDB} (hv : v.region = r) (hne : oth.region ≠ r) :
    oth ∈ updateRegion t r v ↔ oth ∈ t := by
  constructor
  · intro h
    rcases List.mem_map.mp h with ⟨x, hx, hxe⟩
    by_cases hxr : x.region = r
    · rw [if_pos hxr] at hxe
      exact absurd (by rw [← hxe]; exact hv) hne
    · rw [if_neg hxr] at hxe
      exact hxe ▸ hx
  · intro h
    exact List.mem_map.mpr ⟨oth, h, by rw [if_neg hne]⟩

/-- C10 (per-region isolation): a region-scoped `acquire_lock`,
`release_lock`, or region-scoped sweep leaves every row of a different
region exactly in place and introduces no new row for other regions; the
unscoped sweep preserves every unexpired row and adds nothing, so it can
delete rows of other regions only when their lease is strictly expired.
`get_lock_status` and `get_all_lock_statuses` execute only selects and have
no table effect at all. -/
theorem region_isolation (t : Table) (region : String) (u : User)
    (timeout_seconds now : Int) (oth : RegionPushLockDB)
    (hne : oth.region ≠ str_lower region) :
    (oth ∈ (acquire_lock t region u timeout_seconds now).1 ↔ oth ∈ t) ∧
    (oth ∈ (release_lock t region u).1 ↔ oth ∈ t) ∧
    (oth ∈ (cleanup_expired_locks t (some region) now).1 ↔ oth ∈ t) ∧
    (now ≤ oth.expires_at →
      (oth ∈ (cleanup_expired_locks t none now).1 ↔ oth ∈ t)) ∧
    (oth ∈ (cleanup_expired_locks t none now).1 → oth ∈ t) := by
  have hb : (oth.region == str_lower region) = false := by
    simp [hne]
  have hb2 : (oth.region == str_lower (str_lower region)) = false := by
    rw [str_lower_idem]
    exact hb
  have hmem1 : oth ∈ (cleanup_expired_locks t (some (str_lower region)) now).1 ↔ oth ∈ t := by
    rw [cleanup_some_fst]
    simp [List.mem_filter, hb2]
  refine ⟨?_, ?_, ?_, ?_, ?_⟩
  · rcases h1 : selectRegion ((cleanup_expired_locks t (some (str_lower region)) now).1)
        (str_lower region) with _ | row
    · rw [acquire_branch_none t region u timeout_seconds now h1]
      simp only [List.mem_append, List.mem_singleton]
      constructor
      · rintro (h | h)
        · exact hmem1.mp h
        · exact absurd (by rw [h]) hne
      · intro h
        exact Or.inl (hmem1.mpr h)
    · have hrg : row.region = str_lower region := (selectRegion_mem h1).2
      by_cases he : row.locked_by_email = u.email
      · rw [acquire_branch_refresh t region u timeout_seconds now row h1 he]
        exact (mem_updateRegion_iff
          { row with locked_at := now, expires_at := now + timeout_seconds }
          hrg hne).trans hmem1
      · by_cases hgt : row.expires_at > now
        · rw [acquire_branch_blocked t region u timeout_seconds now row h1 he hgt]
          exact hmem1
        · rw [acquire_branch_takeover t region u timeout_seconds now row h1 he hgt]
          exact (mem_updateRegion_iff
            { row with
              locked_by_email := u.email
              locked_by_name := u.name
              locked_at := now
              expires_at := now + timeout_seconds }
            hrg hne).trans hmem1
  · rcases hs : selectRegion t (str_lower region) with _ | lock
    · rw [release_no_row t region u hs]
    · by_cases he : lock.locked_by_email = u.email
      · rw [release_owned t region u lock hs he]
        simp [List.mem_filter, hb]
      · rw [release_denied t region u lock hs he]
  · rw [cleanup_some_fst]
    simp [List.mem_filter, hb]
  · intro hle
    have hlt : ¬ (oth.expires_at < now) := by omega
    simp [cleanup_expired_locks, List.mem_filter, hlt]
  · intro h
    simp only [cleanup_expired_locks, List.mem_filter] at h
    exact h.1

def dubRow : RegionPushLockDB where
  region := "dub"
  locked_by_email := "erin@example.com"
  locked_by_name := some "Erin"
  locked_at := 0
  expires_at := 300

/-- Witness for C10: erin's `dub` row survives bob's operations on `cbg` and
the unscoped sweep, unchanged. -/
theorem region_isolation_witness :
    (dubRow ∈ (acquire_lock [dubRow] "cbg" bob 300 10).1 ↔ dubRow ∈ [dubRow]) ∧
    (dubRow ∈ (release_lock [dubRow] "cbg" bob).1 ↔ dubRow ∈ [dubRow]) ∧
    (dubRow ∈ (cleanup_expired_locks [dubRow] (some "cbg") 10).1 ↔ dubRow ∈ [dubRow]) ∧
    ((10 : Int) ≤ dubRow.expires_at →
      (dubRow ∈ (cleanup_expired_locks [dubRow] none 10).1 ↔ dubRow ∈ [dubRow])) ∧
    (dubRow ∈ (cleanup_expired_locks [dubRow] none 10).1 → dubRow ∈ [dubRow]) :=
  region_isolation [dubRow] "cbg" bob 300 10 dubRow (by decide)
